import Mathlib

/-!
Shallow embedding of the question-bank core of `src/ui.py` (classes
`QuestionManager`, `DatabaseManager`, the answer-judging path of
`MainWindow`) and of the answer-extraction step of `src/transformer.py`.

Python dicts holding one question become the `Question` structure; the
manager's `questions` list plus `current_question_index` become `QState`;
the full manager (with `question_sets` and `current_set`) becomes `Store`.
In-place mutation becomes functional update of the list element at the
cursor.
-/

/-- One question record, as built by `QuestionManager.load_from_excel`
(src/ui.py lines 44-63).  Content cells are kept as strings; the five
mutable progress fields mirror `answered`, `correct` (consecutive-correct
streak), `wrong`, `marked`, `mastered`. -/
structure Question where
  typ : String
  level : String
  qid : String
  seqNum : String
  content : String
  optA : String
  optB : String
  optC : String
  optD : String
  answer : String
  explanation : String
  answered : Nat
  correct : Nat
  wrong : Nat
  marked : Bool
  mastered : Bool
deriving DecidableEq, Repr

/-- The per-set state of `QuestionManager`: the active `questions` list and
`current_question_index`. -/
structure QState where
  questions : List Question
  idx : Nat
deriving DecidableEq, Repr

/-- Embeds `QuestionManager.get_current_question` (src/ui.py lines 84-88): `None`
when the list is empty, otherwise the element at the cursor.  (In Python an
out-of-range cursor on a non-empty list raises `IndexError`; here that case
yields `none` as well, which is what lets us state that the call fails.) -/
def get_current_question (qs : List Question) (idx : Nat) : Option Question :=
  if qs.isEmpty then none else qs[idx]?

/-- The per-question effect of `QuestionManager.record_answer`
(src/ui.py lines 124-142): always bump `answered`; on a correct answer bump
the streak and set `mastered` once the new streak reaches 2 while not yet
mastered; on a wrong answer bump `wrong` and zero the streak. -/
def answerUpdate (is_correct : Bool) (q : Question) : Question :=
  if is_correct then
    let q1 := { q with answered := q.answered + 1, correct := q.correct + 1 }
    if q1.correct ≥ 2 ∧ ¬q1.mastered then { q1 with mastered := true } else q1
  else
    { q with answered := q.answered + 1, wrong := q.wrong + 1, correct := 0 }

/-- Embeds `QuestionManager.record_answer`: applies `answerUpdate` to the current
question in place; no-op when `get_current_question` yields nothing. -/
def record_answer (s : QState) (is_correct : Bool) : QState :=
  match get_current_question s.questions s.idx with
  | none => s
  | some q => { s with questions := s.questions.set s.idx (answerUpdate is_correct q) }

/-- Whether index `i` holds a not-yet-mastered question (the scan test
`not self.questions[i]['mastered']`); out-of-range indices fail the test. -/
def isUnmastered (qs : List Question) (i : Nat) : Bool :=
  match qs[i]? with
  | some q => !q.mastered
  | none => false

/-- Position of the first not-yet-mastered question in a list, if any. -/
def findUnmastered : List Question → Option Nat
  | [] => none
  | q :: rest =>
    if !q.mastered then some 0 else (findUnmastered rest).map (· + 1)

/-- The loop of `QuestionManager.next_question` (src/ui.py lines 90-98):
first index `j ≥ i` with an unmastered question. -/
def scanForward (qs : List Question) (i : Nat) : Option Nat :=
  (findUnmastered (qs.drop i)).map (i + ·)

/-- The loop of `QuestionManager.prev_question` (src/ui.py lines 100-108):
greatest index `j < i` with an unmastered question (`range(i-1, -1, -1)`). -/
def scanBackward (qs : List Question) : Nat → Option Nat
  | 0 => none
  | i + 1 => if isUnmastered qs i then some i else scanBackward qs i

/-- Embeds `QuestionManager.next_question`: move to the nearest following
unmastered question, reporting whether one was found. -/
def next_question (s : QState) : Bool × QState :=
  match scanForward s.questions (s.idx + 1) with
  | some j => (true, { s with idx := j })
  | none => (false, s)

/-- Embeds `QuestionManager.prev_question`: move to the nearest preceding
unmastered question, reporting whether one was found. -/
def prev_question (s : QState) : Bool × QState :=
  match scanBackward s.questions s.idx with
  | some j => (true, { s with idx := j })
  | none => (false, s)

/-- A small concrete question used by witnesses: identity `i`, mastery
flag `m`, everything else at load-time defaults. -/
def mkQ (i : String) (m : Bool) : Question :=
  ⟨"单选题", "初级工", i, "1", "c", "a", "b", "c", "d", "A", "暂无解析",
    0, 0, 0, false, m⟩

/-- The bank of the spec's scenario: A unmastered, B mastered,
C unmastered. -/
def bankABC : List Question := [mkQ "A" false, mkQ "B" true, mkQ "C" false]

/-- The per-question effect of
`QuestionManager.release_mastered_questions_by_wrong_count`
(src/ui.py lines 172-180): a mastered question whose `wrong` count meets
the threshold loses `mastered` and has its streak zeroed. -/
def releaseUpdate (threshold : Int) (q : Question) : Question :=
  if q.mastered ∧ (q.wrong : Int) ≥ threshold then
    { q with mastered := false, correct := 0 }
  else q

/-- Embeds `QuestionManager.release_mastered_questions_by_wrong_count`: walks the
list applying `releaseUpdate` and counts the questions it changed. -/
def release_mastered_questions_by_wrong_count (qs : List Question) (threshold : Int) :
    Nat × List Question :=
  (qs.countP (fun q => q.mastered && (q.wrong : Int) ≥ threshold),
   qs.map (releaseUpdate threshold))

/-- The per-question effect of `QuestionManager.reset_progress`
(src/ui.py lines 161-170): skip mastered questions when asked to, otherwise
zero `answered` and clear `marked`; `correct`, `wrong` and `mastered` are
deliberately untouched. -/
def resetUpdate (exclude_mastered : Bool) (q : Question) : Question :=
  if exclude_mastered ∧ q.mastered then q
  else { q with answered := 0, marked := false }

/-- Embeds `QuestionManager.reset_progress`. -/
def reset_progress (qs : List Question) (exclude_mastered : Bool) : List Question :=
  qs.map (resetUpdate exclude_mastered)


/-- Answering a question repeatedly: fold of `answerUpdate` over the
submitted results, oldest first. -/
def runAnswers (q : Question) (bs : List Bool) : Question :=
  bs.foldl (fun q b => answerUpdate b q) q

/-- Load-time defaults of the five mutable fields
(src/ui.py lines 58-62). -/
def freshProgress (q : Question) : Prop :=
  q.answered = 0 ∧ q.correct = 0 ∧ q.wrong = 0 ∧ q.marked = false ∧ q.mastered = false

/-- The full `QuestionManager` state: the named banks (`question_sets`, a
Python dict modelled as an association list in insertion order), the name of
the current bank, and the active `questions` list with its cursor. -/
structure Store where
  question_sets : List (String × List Question)
  current_set : String
  questions : List Question
  idx : Nat
deriving DecidableEq, Repr

/-- Dict lookup `self.question_sets[name]` / `name in self.question_sets`. -/
def lookupSet (sets : List (String × List Question)) (name : String) :
    Option (List Question) :=
  match sets.find? (fun p => p.1 == name) with
  | some p => some p.2
  | none => none

/-- Dict assignment `self.question_sets[set_name] = questions`: replaces the
entry if the key exists, otherwise appends it. -/
def insertReplace (sets : List (String × List Question)) (name : String)
    (qs : List Question) : List (String × List Question) :=
  if sets.any (fun p => p.1 == name) then
    sets.map (fun p => if p.1 == name then (name, qs) else p)
  else sets ++ [(name, qs)]

/-- Embeds `QuestionManager.set_current_set` (src/ui.py lines 75-82): on a known
name it switches `current_set`, rebinds `questions` to that bank and sets
`current_question_index = 0`, returning `True`; on an unknown name it
returns `False` and changes nothing. -/
def set_current_set (s : Store) (name : String) : Bool × Store :=
  match lookupSet s.question_sets name with
  | some qs =>
    (true, { s with current_set := name, questions := qs, idx := 0 })
  | none => (false, s)

/-- A parsed spreadsheet: the column names and, per data row, the cell
lookup (a missing column yields `none`). -/
structure ExcelTable where
  columns : List String
  rows : List (String → Option String)

/-- The `required_columns` list of `QuestionManager.load_from_excel`
(src/ui.py lines 33-34). -/
def required_columns : List String :=
  ["题型", "等级", "题号", "题目编号", "题目内容",
   "选项A", "选项B", "选项C", "选项D", "正确答案"]

/-- One question dict built from a row (src/ui.py lines 44-63); the
required cells are read directly (the schema check guarantees their
columns), `解析` falls back to `暂无解析`, and the five progress fields
start at their defaults. -/
def build_question (row : String → Option String) : Question :=
  { typ := (row "题型").getD "",
    level := (row "等级").getD "",
    qid := (row "题号").getD "",
    seqNum := (row "题目编号").getD "",
    content := (row "题目内容").getD "",
    optA := (row "选项A").getD "",
    optB := (row "选项B").getD "",
    optC := (row "选项C").getD "",
    optD := (row "选项D").getD "",
    answer := (row "正确答案").getD "",
    explanation := (row "解析").getD "暂无解析",
    answered := 0, correct := 0, wrong := 0, marked := false, mastered := false }

/-- Embeds `QuestionManager.load_from_excel` (src/ui.py lines 29-73): fail when a
required column is absent; otherwise register the built questions under
`set_name` (replacing any previous entry) and set `current_set`.  Neither
the active `questions` list nor `current_question_index` is touched. -/
def load_from_excel (s : Store) (t : ExcelTable) (set_name : String) :
    Bool × Store :=
  if required_columns.all (fun c => t.columns.contains c) then
    (true,
     { s with
       question_sets :=
         insertReplace s.question_sets set_name (t.rows.map build_question),
       current_set := set_name })
  else (false, s)

/-- One row of the `user_progress` table as written by
`DatabaseManager.save_progress` (src/ui.py lines 253-259): the question id
plus the five progress values, booleans stored as `int(...)`. -/
structure ProgressRow where
  qid : String
  answered : Nat
  correct : Nat
  wrong : Nat
  marked : Nat
  mastered : Nat
deriving DecidableEq, Repr

/-- Python `int(b)` on a boolean. -/
def boolToInt (b : Bool) : Nat := if b then 1 else 0

/-- Embeds the insert loop of `DatabaseManager.save_progress`: one row per in-memory
question, in list order. -/
def save_progress_rows (qs : List Question) : List ProgressRow :=
  qs.map (fun q =>
    ⟨q.qid, q.answered, q.correct, q.wrong, boolToInt q.marked, boolToInt q.mastered⟩)

/-- Overwriting the five mutable fields of a question from a persisted row
(src/ui.py lines 1249-1254); Python `bool(x)` on the stored ints is
`x ≠ 0`. -/
def applyFields (q : Question) (r : ProgressRow) : Question :=
  { q with answered := r.answered, correct := r.correct, wrong := r.wrong,
           marked := r.marked != 0, mastered := r.mastered != 0 }

/-- Applying one persisted row to the in-memory list.  The loader builds
`{q['id']: q for q in questions}`, so an id maps to its LAST occurrence in
the list — hence the `rest.any` guard); a row whose id matches no question
is silently dropped (src/ui.py lines 1243-1254). -/
def applyRow (r : ProgressRow) : List Question → List Question
  | [] => []
  | q :: rest =>
    if rest.any (fun q2 => q2.qid == r.qid) then q :: applyRow r rest
    else if q.qid == r.qid then applyFields q r :: rest
    else q :: applyRow r rest

/-- The progress-application loop: rows are applied in order. -/
def apply_progress_rows (qs : List Question) (rows : List ProgressRow) :
    List Question :=
  rows.foldl (fun acc r => applyRow r acc) qs

/-- A freshly-constructed copy of a question: same content and identity,
progress fields at load-time defaults. -/
def freshOf (q : Question) : Question :=
  { q with answered := 0, correct := 0, wrong := 0, marked := false, mastered := false }

/-- The state-relevant core of `MainWindow.change_question_set`
(src/ui.py lines 1223-1260): for a known name, switch via
`set_current_set`, apply the persisted rows to the (shared, in-place
mutated) question list, then assign the persisted `last_position` to
`current_question_index` without any range check. -/
def change_question_set (s : Store) (name : String) (rows : List ProgressRow)
    (last_position : Nat) : Store :=
  match lookupSet s.question_sets name with
  | none => s
  | some _ =>
    let s1 := (set_current_set s name).2
    let qs' := apply_progress_rows s1.questions rows
    { s1 with questions := qs',
              question_sets := insertReplace s1.question_sets name qs',
              idx := last_position }

/-- The option-letter domain of the bank format. -/
def option_letters : List Char := ['A', 'B', 'C', 'D']

/-- The `([A-D]+|...)` capture of the `正确答案` field
(src/transformer.py lines 67-69): a maximal run of option letters taken in
SOURCE order — no sorting or canonicalization happens before storage. -/
def extract_answer_letters (cs : List Char) : List Char :=
  cs.takeWhile (fun c => option_letters.contains c)

/-- Embeds `AnswerWidget.get_selected_answers` (src/ui.py lines 482-489): walk the
option buttons in creation order (the fixed A-D insertion order of the
options dict) and concatenate the first letter of each checked button, so
the produced string never depends on the order the user clicked in. -/
def get_selected_answers (buttons : List Char) (checked : Char → Bool) : String :=
  String.mk (buttons.filter checked)

/-- The judgment `is_correct = selected == question['answer']`
(src/ui.py line 1360): exact, order-sensitive string equality. -/
def check_answer (selected : String) (answer : String) : Bool :=
  selected == answer

theorem answerUpdate_true_eq (q : Question) :
    answerUpdate true q =
      { q with answered := q.answered + 1, correct := q.correct + 1,
               mastered := q.mastered || decide (q.correct + 1 ≥ 2) } := by
  unfold answerUpdate
  by_cases hm : q.mastered
  · simp [hm]
  · by_cases hc : q.correct + 1 ≥ 2 <;> simp [hm, hc]

theorem answerUpdate_false_eq (q : Question) :
    answerUpdate false q =
      { q with answered := q.answered + 1, wrong := q.wrong + 1, correct := 0 } := by
  simp [answerUpdate]

theorem isUnmastered_cons_succ (q : Question) (rest : List Question) (j : Nat) :
    isUnmastered (q :: rest) (j + 1) = isUnmastered rest j := by
  simp [isUnmastered]

theorem isUnmastered_out (qs : List Question) (j : Nat) (h : qs.length ≤ j) :
    isUnmastered qs j = false := by
  simp [isUnmastered, List.getElem?_eq_none h]

theorem findUnmastered_eq_some (qs : List Question) (k : Nat) :
    findUnmastered qs = some k ↔
      isUnmastered qs k = true ∧ ∀ j, j < k → isUnmastered qs j = false := by
  induction qs generalizing k with
  | nil => simp [findUnmastered, isUnmastered]
  | cons q rest ih =>
    by_cases hm : q.mastered
    · have hstep : findUnmastered (q :: rest) = (findUnmastered rest).map (· + 1) := by
        simp [findUnmastered, hm]
      cases k with
      | zero =>
        constructor
        · intro h
          rw [hstep] at h
          obtain ⟨a, _, hak⟩ := Option.map_eq_some'.mp h
          omega
        · intro hcon
          have := hcon.1
          simp [isUnmastered, hm] at this
      | succ k' =>
        constructor
        · intro h
          rw [hstep] at h
          obtain ⟨a, ha, hak⟩ := Option.map_eq_some'.mp h
          have hak' : a = k' := by omega
          subst hak'
          have hspec := (ih a).mp ha
          refine ⟨by rw [isUnmastered_cons_succ]; exact hspec.1, ?_⟩
          intro j hj
          cases j with
          | zero => simp [isUnmastered, hm]
          | succ j' =>
            rw [isUnmastered_cons_succ]
            exact hspec.2 j' (by omega)
        · intro hcon
          have ha : findUnmastered rest = some k' := by
            refine (ih k').mpr ⟨?_, ?_⟩
            · rw [← isUnmastered_cons_succ q]
              exact hcon.1
            · intro j hj
              rw [← isUnmastered_cons_succ q]
              exact hcon.2 (j + 1) (by omega)
          rw [hstep, ha]
          rfl
    · have hstep : findUnmastered (q :: rest) = some 0 := by
        simp [findUnmastered, hm]
      constructor
      · intro h
        rw [hstep] at h
        have hk : k = 0 := by
          have := Option.some.inj h
          omega
        subst hk
        exact ⟨by simp [isUnmastered, hm], fun j hj => by omega⟩
      · intro hcon
        cases k with
        | zero => exact hstep
        | succ k' =>
          have := hcon.2 0 (by omega)
          simp [isUnmastered, hm] at this

theorem findUnmastered_eq_none (qs : List Question) :
    findUnmastered qs = none ↔ ∀ j, isUnmastered qs j = false := by
  induction qs with
  | nil => simp [findUnmastered, isUnmastered]
  | cons q rest ih =>
    by_cases hm : q.mastered
    · have hstep : findUnmastered (q :: rest) = (findUnmastered rest).map (· + 1) := by
        simp [findUnmastered, hm]
      rw [hstep, Option.map_eq_none', ih]
      constructor
      · intro h j
        cases j with
        | zero => simp [isUnmastered, hm]
        | succ j' => rw [isUnmastered_cons_succ]; exact h j'
      · intro h j
        rw [← isUnmastered_cons_succ q]
        exact h (j + 1)
    · have hstep : findUnmastered (q :: rest) = some 0 := by
        simp [findUnmastered, hm]
      rw [hstep]
      constructor
      · intro h; cases h
      · intro h
        have := h 0
        simp [isUnmastered, hm] at this

theorem isUnmastered_drop (qs : List Question) (i k : Nat) :
    isUnmastered (qs.drop i) k = isUnmastered qs (i + k) := by
  simp [isUnmastered, List.getElem?_drop]

theorem scanForward_eq_some (qs : List Question) (i k : Nat) :
    scanForward qs i = some k ↔
      i ≤ k ∧ isUnmastered qs k = true ∧
        ∀ j, i ≤ j → j < k → isUnmastered qs j = false := by
  simp only [scanForward, Option.map_eq_some']
  constructor
  · intro ⟨a, ha, hk⟩
    subst hk
    have := (findUnmastered_eq_some _ a).mp ha
    refine ⟨by omega, by simpa [isUnmastered_drop] using this.1, ?_⟩
    intro j hij hjk
    have := this.2 (j - i) (by omega)
    rw [isUnmastered_drop] at this
    have hji : i + (j - i) = j := by omega
    rwa [hji] at this
  · intro ⟨hik, h1, h2⟩
    refine ⟨k - i, ?_, by omega⟩
    refine (findUnmastered_eq_some _ _).mpr ⟨?_, ?_⟩
    · rw [isUnmastered_drop]
      have : i + (k - i) = k := by omega
      rwa [this]
    · intro j hj
      rw [isUnmastered_drop]
      exact h2 (i + j) (by omega) (by omega)

theorem scanForward_eq_none (qs : List Question) (i : Nat) :
    scanForward qs i = none ↔ ∀ j, i ≤ j → isUnmastered qs j = false := by
  simp only [scanForward, Option.map_eq_none', findUnmastered_eq_none]
  constructor
  · intro h j hij
    have := h (j - i)
    rw [isUnmastered_drop] at this
    have hji : i + (j - i) = j := by omega
    rwa [hji] at this
  · intro h j
    rw [isUnmastered_drop]
    exact h (i + j) (by omega)

theorem scanBackward_eq_some (qs : List Question) (i k : Nat) :
    scanBackward qs i = some k ↔
      k < i ∧ isUnmastered qs k = true ∧
        ∀ j, k < j → j < i → isUnmastered qs j = false := by
  induction i with
  | zero => simp [scanBackward]
  | succ i' ih =>
    by_cases hu : isUnmastered qs i'
    · simp only [scanBackward, hu, if_pos]
      constructor
      · intro h
        have hk : k = i' := by simpa using h.symm
        subst hk
        exact ⟨by omega, hu, fun j h1 h2 => by omega⟩
      · intro ⟨h1, h2, h3⟩
        by_cases hk : k = i'
        · simp [hk]
        · have := h3 i' (by omega) (by omega)
          rw [hu] at this
          cases this
    · simp only [scanBackward, hu, if_neg, Bool.false_eq_true, not_false_iff]
      rw [ih]
      constructor
      · intro ⟨h1, h2, h3⟩
        refine ⟨by omega, h2, ?_⟩
        intro j hj1 hj2
        by_cases hje : j = i'
        · subst hje; simpa using hu
        · exact h3 j hj1 (by omega)
      · intro ⟨h1, h2, h3⟩
        have hki : k ≠ i' := by
          intro he
          subst he
          rw [h2] at hu
          exact hu rfl
        exact ⟨by omega, h2, fun j hj1 hj2 => h3 j hj1 (by omega)⟩

theorem scanBackward_eq_none (qs : List Question) (i : Nat) :
    scanBackward qs i = none ↔ ∀ j, j < i → isUnmastered qs j = false := by
  induction i with
  | zero => simp [scanBackward]
  | succ i' ih =>
    by_cases hu : isUnmastered qs i'
    · simp only [scanBackward, hu, if_pos]
      constructor
      · intro h; cases h
      · intro h
        have := h i' (by omega)
        rw [hu] at this
        cases this
    · simp only [scanBackward, hu, if_neg, Bool.false_eq_true, not_false_iff]
      rw [ih]
      constructor
      · intro h j hj
        by_cases hje : j = i'
        · subst hje; simpa using hu
        · exact h j (by omega)
      · intro h j hj
        exact h j (by omega)

/-- Claim C3: Advance scans strictly forward (Next) or strictly backward
(Prev) from the cursor for the nearest unmastered question; when found it
sets the cursor there and returns true; when none exists it returns false
with the cursor unchanged, and repeating the failing call changes
nothing. -/
theorem advance_spec (s : QState) :
    ((∀ j, s.idx < j → j < s.questions.length → isUnmastered s.questions j = false) →
      next_question s = (false, s) ∧
      next_question (next_question s).2 = (false, s)) ∧
    (∀ j, s.idx < j → isUnmastered s.questions j = true →
      (∀ k, s.idx < k → k < j → isUnmastered s.questions k = false) →
      next_question s = (true, { s with idx := j })) ∧
    ((∀ j, j < s.idx → isUnmastered s.questions j = false) →
      prev_question s = (false, s) ∧
      prev_question (prev_question s).2 = (false, s)) ∧
    (∀ j, j < s.idx → isUnmastered s.questions j = true →
      (∀ k, j < k → k < s.idx → isUnmastered s.questions k = false) →
      prev_question s = (true, { s with idx := j })) := by
  refine ⟨?_, ?_, ?_, ?_⟩
  · intro h
    have hnone : scanForward s.questions (s.idx + 1) = none := by
      rw [scanForward_eq_none]
      intro j hj
      by_cases hlen : j < s.questions.length
      · exact h j (by omega) hlen
      · exact isUnmastered_out _ _ (by omega)
    have h1 : next_question s = (false, s) := by
      simp [next_question, hnone]
    exact ⟨h1, by rw [h1]; exact h1⟩
  · intro j h1 h2 h3
    have hsome : scanForward s.questions (s.idx + 1) = some j := by
      rw [scanForward_eq_some]
      exact ⟨by omega, h2, fun k hk1 hk2 => h3 k (by omega) hk2⟩
    simp [next_question, hsome]
  · intro h
    have hnone : scanBackward s.questions s.idx = none := by
      rw [scanBackward_eq_none]
      exact h
    have h1 : prev_question s = (false, s) := by
      simp [prev_question, hnone]
    exact ⟨h1, by rw [h1]; exact h1⟩
  · intro j h1 h2 h3
    have hsome : scanBackward s.questions s.idx = some j := by
      rw [scanBackward_eq_some]
      exact ⟨h1, h2, h3⟩
    simp [prev_question, hsome]

/-- Witness for C3: in `bankABC` with the cursor on A, Next skips B and
lands on C; from C, Next fails twice leaving the cursor in place, and Prev
from C returns to A. -/
theorem advance_spec_witness :
    next_question ⟨bankABC, 0⟩ = (true, ⟨bankABC, 2⟩) ∧
    next_question ⟨bankABC, 2⟩ = (false, ⟨bankABC, 2⟩) ∧
    next_question (next_question ⟨bankABC, 2⟩).2 = (false, ⟨bankABC, 2⟩) ∧
    prev_question ⟨bankABC, 2⟩ = (true, ⟨bankABC, 0⟩) := by
  have h0 := advance_spec ⟨bankABC, 0⟩
  have h2 := advance_spec ⟨bankABC, 2⟩
  have hnone : ∀ j, (⟨bankABC, 2⟩ : QState).idx < j → j < bankABC.length →
      isUnmastered bankABC j = false := by
    intro j hj1 hj2
    have ha : 2 < j := hj1
    have hb : j < 3 := by simpa [bankABC] using hj2
    omega
  refine ⟨?_, ?_, ?_, ?_⟩
  · refine h0.2.1 2 (by decide) (by decide) ?_
    intro k hk1 hk2
    have ha : 0 < k := hk1
    have hb : k < 2 := hk2
    interval_cases k
    decide
  · exact (h2.1 hnone).1
  · exact (h2.1 hnone).2
  · refine h2.2.2.2 0 (by decide) (by decide) ?_
    intro k hk1 hk2
    have ha : 0 < k := hk1
    have hb : k < 2 := hk2
    interval_cases k
    decide

theorem answerUpdate_streak_bound (b : Bool) (q : Question) :
    (answerUpdate b q).mastered = false → (answerUpdate b q).correct ≤ 1 := by
  cases b with
  | false => rw [answerUpdate_false_eq]; intro _; exact Nat.zero_le 1
  | true =>
    rw [answerUpdate_true_eq]
    intro h2
    simp at h2 ⊢
    obtain ⟨h2a, h2b⟩ := h2
    omega

theorem runAnswers_streak_bound (q : Question) (bs : List Bool)
    (h : q.mastered = false → q.correct ≤ 1) :
    (runAnswers q bs).mastered = false → (runAnswers q bs).correct ≤ 1 := by
  induction bs generalizing q with
  | nil => exact h
  | cons b rest ih =>
    exact ih (answerUpdate b q) (answerUpdate_streak_bound b q)

/-- Claim C2: from load-time defaults, answering sets `mastered` exactly at
the moment the streak reaches 2, never more than once, and never clears it;
once mastered, further correct answers only grow the streak; the explicit
release operation is what clears `mastered` (and zeroes the streak), and a
progress reset never touches `mastered`. -/
theorem mastery_transition_spec (q0 : Question) (h0 : freshProgress q0) :
    (∀ bs : List Bool,
      ((runAnswers q0 bs).mastered = false →
        ∀ b, (answerUpdate b (runAnswers q0 bs)).mastered = true ↔
          (b = true ∧ (runAnswers q0 bs).correct = 1)) ∧
      ((runAnswers q0 bs).mastered = true →
        ∀ b, (answerUpdate b (runAnswers q0 bs)).mastered = true) ∧
      ((runAnswers q0 bs).mastered = true →
        (answerUpdate true (runAnswers q0 bs)).correct =
          (runAnswers q0 bs).correct + 1)) ∧
    (∀ q : Question, ∀ t : Int, q.mastered = true → (q.wrong : Int) ≥ t →
      (releaseUpdate t q).mastered = false ∧ (releaseUpdate t q).correct = 0) ∧
    (∀ q : Question, ∀ e : Bool, (resetUpdate e q).mastered = q.mastered) := by
  refine ⟨?_, ?_, ?_⟩
  · intro bs
    set q := runAnswers q0 bs with hq
    have hbound : q.mastered = false → q.correct ≤ 1 := by
      rw [hq]
      exact runAnswers_streak_bound q0 bs (fun _ => by simp [h0.2.1])
    refine ⟨?_, ?_, ?_⟩
    · intro hm b
      have hc := hbound hm
      cases b with
      | false =>
        rw [answerUpdate_false_eq]
        simp [hm]
      | true =>
        rw [answerUpdate_true_eq]
        simp [hm]
        omega
    · intro hm b
      cases b with
      | false => rw [answerUpdate_false_eq]; exact hm
      | true => rw [answerUpdate_true_eq]; simp [hm]
    · intro hm
      rw [answerUpdate_true_eq]
  · intro q t hm ht
    simp [releaseUpdate, hm, ht]
  · intro q e
    by_cases h : e ∧ q.mastered <;> simp [resetUpdate, h]

/-- Witness for C2: a fresh question answered correctly twice is mastered at
the second submission and stays mastered afterwards. -/
theorem mastery_transition_spec_witness :
    let q0 : Question := ⟨"判断题", "技师", "3.4.7", "7", "c", "", "", "", "",
      "A", "暂无解析", 0, 0, 0, false, false⟩
    (answerUpdate true (runAnswers q0 [true])).mastered = true ∧
    (answerUpdate true (runAnswers q0 [true, true])).mastered = true ∧
    (releaseUpdate 0 (runAnswers q0 [true, true])).mastered = false := by
  intro q0
  have h := mastery_transition_spec q0 (by constructor <;> simp)
  refine ⟨?_, ?_, ?_⟩
  · exact ((h.1 [true]).1 (by decide) true).mpr ⟨rfl, by decide⟩
  · exact (h.1 [true, true]).2.1 (by decide) true
  · exact (h.2.1 (runAnswers q0 [true, true]) 0 (by decide) (by decide)).1

/-- Claim C1: RecordAnswer increments `timesAnswered`, handles the
correct/incorrect branches as specified, and is a no-op on an empty set. -/
theorem record_answer_spec (s : QState) (b : Bool) :
    (s.questions = [] → record_answer s b = s) ∧
    (∀ q, get_current_question s.questions s.idx = some q →
      (record_answer s b).idx = s.idx ∧
      (record_answer s b).questions.length = s.questions.length ∧
      (∀ j, j ≠ s.idx → (record_answer s b).questions[j]? = s.questions[j]?) ∧
      (∀ q', (record_answer s b).questions[s.idx]? = some q' →
        q'.answered = q.answered + 1 ∧
        (b = true →
          q'.correct = q.correct + 1 ∧ q'.wrong = q.wrong ∧
          q'.mastered = (q.mastered || q.correct + 1 ≥ 2)) ∧
        (b = false →
          q'.wrong = q.wrong + 1 ∧ q'.correct = 0 ∧ q'.mastered = q.mastered))) := by
  constructor
  · intro hnil
    simp [record_answer, get_current_question, hnil]
  · intro q hq
    have hne : ¬s.questions.isEmpty := by
      intro h
      simp [get_current_question, h] at hq
    have hget : s.questions[s.idx]? = some q := by
      simpa [get_current_question, hne] using hq
    have hidx : s.idx < s.questions.length := by
      exact (List.getElem?_eq_some.mp hget).1
    have hrec : record_answer s b =
        { s with questions := s.questions.set s.idx (answerUpdate b q) } := by
      simp [record_answer, hq]
    refine ⟨by rw [hrec], by rw [hrec]; simp, ?_, ?_⟩
    · intro j hj
      rw [hrec]
      simp [List.getElem?_set, hj.symm]
    · intro q' hq'
      have : q' = answerUpdate b q := by
        rw [hrec] at hq'
        simp [List.getElem?_set, hidx] at hq'
        exact hq'.symm
      subst this
      cases b with
      | false =>
        rw [answerUpdate_false_eq]
        refine ⟨rfl, ?_, ?_⟩
        · intro h; cases h
        · intro _; exact ⟨rfl, rfl, rfl⟩
      | true =>
        rw [answerUpdate_true_eq]
        refine ⟨rfl, ?_, ?_⟩
        · intro _; exact ⟨rfl, rfl, rfl⟩
        · intro h; cases h

/-- Witness for C1 at a concrete one-question state. -/
theorem record_answer_spec_witness :
    let q0 : Question := ⟨"单选题", "初级工", "1.1.1", "1", "c", "a", "b", "c", "d",
      "A", "暂无解析", 0, 1, 0, false, false⟩
    let s : QState := ⟨[q0], 0⟩
    ∀ q', (record_answer s true).questions[(0 : Nat)]? = some q' →
      q'.answered = 0 + 1 ∧
      (true = true → q'.correct = 1 + 1 ∧ q'.wrong = 0 ∧
        q'.mastered = (false || 1 + 1 ≥ 2)) ∧
      (true = false → q'.wrong = 0 + 1 ∧ q'.correct = 0 ∧ q'.mastered = false) := by
  intro q0 s
  exact ((record_answer_spec s true).2 q0 (by decide)).2.2.2

theorem releaseUpdate_hit (t : Int) (q : Question)
    (h : q.mastered = true ∧ (q.wrong : Int) ≥ t) :
    releaseUpdate t q = { q with mastered := false, correct := 0 } := by
  unfold releaseUpdate
  rw [if_pos ⟨h.1, h.2⟩]

theorem releaseUpdate_miss (t : Int) (q : Question)
    (h : ¬(q.mastered = true ∧ (q.wrong : Int) ≥ t)) :
    releaseUpdate t q = q := by
  unfold releaseUpdate
  rw [if_neg]
  intro hc
  exact h ⟨hc.1, hc.2⟩

theorem resetUpdate_skip (e : Bool) (q : Question)
    (h : e = true ∧ q.mastered = true) :
    resetUpdate e q = q := by
  unfold resetUpdate
  rw [if_pos ⟨h.1, h.2⟩]

theorem resetUpdate_clear (e : Bool) (q : Question)
    (h : ¬(e = true ∧ q.mastered = true)) :
    resetUpdate e q = { q with answered := 0, marked := false } := by
  unfold resetUpdate
  rw [if_neg]
  intro hc
  exact h ⟨hc.1, hc.2⟩

/-- Claim C4: ReleaseMastered(t) rewrites exactly the questions with
`mastered = true` and `wrong ≥ t` — each ends unmastered with a zeroed
streak and an unchanged `wrong` count — leaves every other question
untouched, and returns the number of questions so rewritten. -/
theorem release_mastered_spec (qs : List Question) (t : Int) :
    (release_mastered_questions_by_wrong_count qs t).2.length = qs.length ∧
    (∀ (i : Nat) (q : Question), qs[i]? = some q →
      (q.mastered = true ∧ (q.wrong : Int) ≥ t →
        (release_mastered_questions_by_wrong_count qs t).2[i]? =
          some { q with mastered := false, correct := 0 }) ∧
      (¬(q.mastered = true ∧ (q.wrong : Int) ≥ t) →
        (release_mastered_questions_by_wrong_count qs t).2[i]? = some q)) ∧
    (release_mastered_questions_by_wrong_count qs t).1 =
      (qs.filter (fun q => q.mastered && decide ((q.wrong : Int) ≥ t))).length := by
  refine ⟨?_, ?_, ?_⟩
  · simp [release_mastered_questions_by_wrong_count]
  · intro i q hq
    constructor
    · intro hcond
      simp [release_mastered_questions_by_wrong_count, List.getElem?_map, hq,
        releaseUpdate_hit t q hcond]
    · intro hcond
      simp [release_mastered_questions_by_wrong_count, List.getElem?_map, hq,
        releaseUpdate_miss t q hcond]
  · simp [release_mastered_questions_by_wrong_count, List.countP_eq_length_filter]

/-- Witness for C4 at the spec's release scenario: a mastered question with
three wrong answers is released at threshold 2 but an identical one is kept
at threshold 5. -/
theorem release_mastered_spec_witness :
    let q3 : Question := { mkQ "M" true with wrong := 3, correct := 2 }
    ((release_mastered_questions_by_wrong_count [q3] 2).2[(0 : Nat)]? =
      some { q3 with mastered := false, correct := 0 }) ∧
    ((release_mastered_questions_by_wrong_count [q3] 5).2[(0 : Nat)]? = some q3) ∧
    (release_mastered_questions_by_wrong_count [q3] 2).1 = 1 := by
  intro q3
  refine ⟨?_, ?_, ?_⟩
  · exact ((release_mastered_spec [q3] 2).2.1 0 q3 (by decide)).1 (by decide)
  · exact ((release_mastered_spec [q3] 5).2.1 0 q3 (by decide)).2 (by decide)
  · rw [(release_mastered_spec [q3] 2).2.2]
    decide

/-- Claim C5: ResetProgress(excludeMastered) zeroes `timesAnswered` and
clears `isMarked` for exactly the questions with
`¬(excludeMastered ∧ isMastered)`, and for every question leaves
`consecutiveCorrect`, `timesWrong` and `isMastered` unchanged. -/
theorem reset_progress_spec (qs : List Question) (e : Bool) :
    (reset_progress qs e).length = qs.length ∧
    ∀ (i : Nat) (q : Question), qs[i]? = some q →
      (¬(e = true ∧ q.mastered = true) →
        (reset_progress qs e)[i]? = some { q with answered := 0, marked := false }) ∧
      ((e = true ∧ q.mastered = true) → (reset_progress qs e)[i]? = some q) ∧
      (∀ q' : Question, (reset_progress qs e)[i]? = some q' →
        q'.correct = q.correct ∧ q'.wrong = q.wrong ∧ q'.mastered = q.mastered) := by
  refine ⟨by simp [reset_progress], ?_⟩
  intro i q hq
  refine ⟨?_, ?_, ?_⟩
  · intro hcond
    simp [reset_progress, List.getElem?_map, hq, resetUpdate_clear e q hcond]
  · intro hcond
    simp [reset_progress, List.getElem?_map, hq, resetUpdate_skip e q hcond]
  · intro q' hq'
    simp only [reset_progress, List.getElem?_map, hq, Option.map_some'] at hq'
    have hq'' : q' = resetUpdate e q := (Option.some.inj hq').symm
    subst hq''
    by_cases hc : e = true ∧ q.mastered = true
    · rw [resetUpdate_skip e q hc]
      exact ⟨rfl, rfl, rfl⟩
    · rw [resetUpdate_clear e q hc]
      exact ⟨rfl, rfl, rfl⟩

/-- Witness for C5: with `excludeMastered = true`, a mastered question is
untouched and an unmastered one keeps its streak/wrong counters while its
`answered` and `marked` are cleared. -/
theorem reset_progress_spec_witness :
    let qm : Question := { mkQ "M" true with answered := 4, correct := 2, wrong := 1, marked := true }
    let qu : Question := { mkQ "U" false with answered := 3, correct := 1, wrong := 2, marked := true }
    ((reset_progress [qm, qu] true)[(0 : Nat)]? = some qm) ∧
    ((reset_progress [qm, qu] true)[(1 : Nat)]? =
      some { qu with answered := 0, marked := false }) ∧
    (∀ q' : Question, (reset_progress [qm, qu] true)[(1 : Nat)]? = some q' →
      q'.correct = qu.correct ∧ q'.wrong = qu.wrong ∧ q'.mastered = qu.mastered) := by
  intro qm qu
  have h := reset_progress_spec [qm, qu] true
  refine ⟨?_, ?_, ?_⟩
  · exact (h.2 0 qm (by decide)).2.1 (by decide)
  · exact (h.2 1 qu (by decide)).1 (by decide)
  · exact (h.2 1 qu (by decide)).2.2

theorem lookupSet_insertReplace_self (sets : List (String × List Question))
    (name : String) (qs : List Question) :
    lookupSet (insertReplace sets name qs) name = some qs := by
  unfold insertReplace
  by_cases hmem : sets.any (fun p => p.1 == name)
  · rw [if_pos hmem]
    induction sets with
    | nil => simp at hmem
    | cons p rest ih =>
      by_cases hp : p.1 == name
      · simp [lookupSet, List.find?, hp]
      · have hrest : rest.any (fun p => p.1 == name) := by
          simp only [List.any_cons] at hmem
          rcases Bool.or_eq_true_iff.mp hmem with h | h
          · exact absurd h hp
          · exact h
        have := ih hrest
        simpa [lookupSet, List.find?, hp] using this
  · rw [if_neg hmem]
    induction sets with
    | nil => simp [lookupSet, List.find?]
    | cons p rest ih =>
      have hp : (p.1 == name) = false := by
        by_contra hc
        exact hmem (by simp only [List.any_cons, Bool.or_eq_true_iff]
                       exact Or.inl (by revert hc; cases p.1 == name <;> simp))
      have hrest : ¬ rest.any (fun p => p.1 == name) := by
        intro hc
        exact hmem (by simp only [List.any_cons, Bool.or_eq_true_iff]; exact Or.inr hc)
      have := ih hrest
      simpa [lookupSet, List.find?, hp] using this

/-- Counterexample to C7 as stated: switching to a known set resets the
cursor to 0 (src/ui.py line 80), so `currentIndex` does not remain at its
previous value 3. -/
theorem set_current_set_counterexample :
    let s0 : Store := ⟨[("A", bankABC)], "B", [], 3⟩
    (set_current_set s0 "A").1 = true ∧ s0.idx = 3 ∧
    (set_current_set s0 "A").2.idx = 0 ∧
    (set_current_set s0 "A").2.idx ≠ s0.idx := by
  decide

/-- Claim C7 as amended: SetCurrent on a known name switches the current
set, rebinds the active question list and returns true, resetting the
cursor to 0 (callers re-apply the persisted position themselves); on an
unknown name it returns false and changes nothing. -/
theorem set_current_set_spec (s : Store) (name : String) :
    (∀ qs : List Question, lookupSet s.question_sets name = some qs →
      set_current_set s name =
        (true, { s with current_set := name, questions := qs, idx := 0 })) ∧
    (lookupSet s.question_sets name = none →
      set_current_set s name = (false, s)) := by
  constructor
  · intro qs h
    simp [set_current_set, h]
  · intro h
    simp [set_current_set, h]

/-- Witness for the amended C7 at a concrete store: a known name switches
with cursor 0; an unknown name is a no-op returning false. -/
theorem set_current_set_spec_witness :
    let s0 : Store := ⟨[("A", bankABC)], "B", [], 3⟩
    set_current_set s0 "A" =
      (true, { s0 with current_set := "A", questions := bankABC, idx := 0 }) ∧
    set_current_set s0 "Z" = (false, s0) := by
  intro s0
  constructor
  · exact (set_current_set_spec s0 "A").1 bankABC (by decide)
  · exact (set_current_set_spec s0 "Z").2 (by decide)

theorem load_from_excel_success (s : Store) (t : ExcelTable) (name : String)
    (h : required_columns.all (fun c => t.columns.contains c) = true) :
    load_from_excel s t name =
      (true,
       { s with
         question_sets :=
           insertReplace s.question_sets name (t.rows.map build_question),
         current_set := name }) := by
  unfold load_from_excel
  rw [if_pos h]

/-- Counterexample to C8 as stated: a successful load leaves the cursor
where it was (here 2), it does not reset it to 0 — and the active question
list stays the previously current one. -/
theorem load_from_excel_counterexample :
    let s0 : Store := ⟨[], "OLD", bankABC, 2⟩
    let t : ExcelTable := ⟨required_columns, []⟩
    (load_from_excel s0 t "NEW").1 = true ∧
    (load_from_excel s0 t "NEW").2.idx = 2 ∧
    (load_from_excel s0 t "NEW").2.idx ≠ 0 ∧
    (load_from_excel s0 t "NEW").2.questions = bankABC := by
  intro s0 t
  have h := load_from_excel_success s0 t "NEW" (by decide)
  rw [h]
  refine ⟨rfl, rfl, by decide, rfl⟩

/-- Claim C8 as amended: Load fails exactly when a required column (kind,
level, id, sequenceNumber, prompt, the four options, correctAnswer) is
absent — explanation being optional; on success it registers the built set
under the source name (replacing a previous set of that name) and sets the
current-set name, but leaves the cursor and the active question list
unchanged. -/
theorem load_from_excel_spec (s : Store) (t : ExcelTable) (name : String) :
    ((load_from_excel s t name).1 = false ↔
      ∃ c ∈ required_columns, t.columns.contains c = false) ∧
    ((load_from_excel s t name).1 = false → (load_from_excel s t name).2 = s) ∧
    ((load_from_excel s t name).1 = true →
      lookupSet (load_from_excel s t name).2.question_sets name =
        some (t.rows.map build_question) ∧
      (load_from_excel s t name).2.current_set = name) ∧
    ((load_from_excel s t name).2.idx = s.idx ∧
     (load_from_excel s t name).2.questions = s.questions) ∧
    (∀ t2 : ExcelTable,
      (load_from_excel (load_from_excel s t name).2 t2 name).1 = true →
      lookupSet (load_from_excel (load_from_excel s t name).2 t2 name).2.question_sets
          name =
        some (t2.rows.map build_question)) := by
  by_cases h : required_columns.all (fun c => t.columns.contains c) = true
  · have hs := load_from_excel_success s t name h
    refine ⟨?_, ?_, ?_, ?_, ?_⟩
    · rw [hs]
      simp only [List.all_eq_true] at h
      constructor
      · intro hfalse; cases hfalse
      · intro ⟨c, hc, hcf⟩
        rw [h c hc] at hcf
        cases hcf
    · rw [hs]; intro hfalse; cases hfalse
    · rw [hs]
      intro _
      exact ⟨lookupSet_insertReplace_self _ _ _, rfl⟩
    · rw [hs]; exact ⟨rfl, rfl⟩
    · intro t2 h2
      by_cases ht2 : required_columns.all (fun c => t2.columns.contains c) = true
      · rw [load_from_excel_success _ t2 name ht2]
        exact lookupSet_insertReplace_self _ _ _
      · rw [load_from_excel, if_neg ht2] at h2
        cases h2
  · have hs : load_from_excel s t name = (false, s) := by
      unfold load_from_excel
      rw [if_neg h]
    refine ⟨?_, ?_, ?_, ?_, ?_⟩
    · rw [hs]
      simp only [List.all_eq_true] at h
      push_neg at h
      obtain ⟨c, hc, hcf⟩ := h
      exact ⟨fun _ => ⟨c, hc, by revert hcf; cases t.columns.contains c <;> simp⟩,
        fun _ => rfl⟩
    · rw [hs]; intro _; rfl
    · rw [hs]; intro htrue; cases htrue
    · rw [hs]; exact ⟨rfl, rfl⟩
    · intro t2 h2
      rw [hs] at h2 ⊢
      by_cases ht2 : required_columns.all (fun c => t2.columns.contains c) = true
      · rw [load_from_excel_success _ t2 name ht2]
        exact lookupSet_insertReplace_self _ _ _
      · rw [load_from_excel, if_neg ht2] at h2
        cases h2

/-- Witness for the amended C8: a table with all required columns loads
successfully, registers under the given name, keeps cursor 2; a table
missing `正确答案` fails and changes nothing. -/
theorem load_from_excel_spec_witness :
    let s0 : Store := ⟨[], "OLD", bankABC, 2⟩
    let t : ExcelTable := ⟨required_columns, []⟩
    let tbad : ExcelTable := ⟨["题型", "等级", "题号"], []⟩
    (lookupSet (load_from_excel s0 t "NEW").2.question_sets "NEW" = some [] ∧
      (load_from_excel s0 t "NEW").2.current_set = "NEW") ∧
    (load_from_excel s0 t "NEW").2.idx = s0.idx ∧
    ((load_from_excel s0 tbad "NEW").1 = false → (load_from_excel s0 tbad "NEW").2 = s0) := by
  intro s0 t tbad
  refine ⟨?_, ?_, ?_⟩
  · exact (load_from_excel_spec s0 t "NEW").2.2.1 (by decide)
  · exact (load_from_excel_spec s0 t "NEW").2.2.2.1.1
  · exact (load_from_excel_spec s0 tbad "NEW").2.1

theorem applyRow_cons (r : ProgressRow) (q : Question) (rest : List Question) :
    applyRow r (q :: rest) =
      if rest.any (fun q2 => q2.qid == r.qid) then q :: applyRow r rest
      else if q.qid == r.qid then applyFields q r :: rest
      else q :: applyRow r rest := rfl

theorem applyRow_length (r : ProgressRow) (qs : List Question) :
    (applyRow r qs).length = qs.length := by
  induction qs with
  | nil => rfl
  | cons q rest ih =>
    rw [applyRow_cons]
    by_cases h1 : rest.any (fun q2 => q2.qid == r.qid)
    · rw [if_pos h1]; simp [ih]
    · rw [if_neg h1]
      by_cases h2 : q.qid == r.qid
      · rw [if_pos h2]; simp
      · rw [if_neg h2]; simp [ih]

theorem apply_progress_rows_length (qs : List Question) (rows : List ProgressRow) :
    (apply_progress_rows qs rows).length = qs.length := by
  induction rows generalizing qs with
  | nil => rfl
  | cons r rest ih =>
    unfold apply_progress_rows
    simp only [List.foldl_cons]
    have := ih (applyRow r qs)
    unfold apply_progress_rows at this
    rw [this, applyRow_length]

theorem applyRow_no_match (r : ProgressRow) (qs : List Question)
    (h : ∀ q ∈ qs, (q.qid == r.qid) = false) : applyRow r qs = qs := by
  induction qs with
  | nil => rfl
  | cons q rest ih =>
    have hq := h q (by simp)
    have hrest : ¬ rest.any (fun q2 => q2.qid == r.qid) := by
      intro hc
      obtain ⟨q2, hq2, hbeq⟩ := List.any_eq_true.mp hc
      rw [h q2 (List.mem_cons_of_mem q hq2)] at hbeq
      cases hbeq
    rw [applyRow_cons]
    rw [if_neg hrest, if_neg (by rw [hq]; intro hc; cases hc)]
    rw [ih (fun q2 hq2 => h q2 (List.mem_cons_of_mem q hq2))]

theorem applyRow_cons_ne (r : ProgressRow) (q : Question) (qs : List Question)
    (h : (q.qid == r.qid) = false) :
    applyRow r (q :: qs) = q :: applyRow r qs := by
  rw [applyRow_cons]
  by_cases h1 : qs.any (fun q2 => q2.qid == r.qid)
  · rw [if_pos h1]
  · rw [if_neg h1, if_neg (by rw [h]; intro hc; cases hc)]

theorem apply_rows_cons_skip (q : Question) (qs : List Question)
    (rows : List ProgressRow) (h : ∀ r ∈ rows, (q.qid == r.qid) = false) :
    apply_progress_rows (q :: qs) rows = q :: apply_progress_rows qs rows := by
  induction rows generalizing qs with
  | nil => rfl
  | cons r rest ih =>
    unfold apply_progress_rows
    simp only [List.foldl_cons]
    rw [applyRow_cons_ne r q qs (h r (by simp))]
    exact ih (applyRow r qs) (fun r2 hr2 => h r2 (by simp [hr2]))

theorem applyFields_fresh (q : Question) :
    applyFields (freshOf q)
      ⟨q.qid, q.answered, q.correct, q.wrong, boolToInt q.marked, boolToInt q.mastered⟩ =
      q := by
  rcases q with ⟨typ, level, qid, seqNum, content, oA, oB, oC, oD, ans, expl, a, c, w, m, ms⟩
  cases m <;> cases ms <;> rfl

/-- Claim C9: saving a bank's progress and applying the saved rows onto an
identically-shaped freshly-constructed bank (counters 0, flags false)
reproduces the five mutable fields of every question exactly — given the
bank's ids are distinct, as the data model requires of the persistence
key — and a row whose id matches no in-memory question is silently
ignored. -/
theorem save_load_round_trip (qs : List Question)
    (h : (qs.map (fun q => q.qid)).Nodup) :
    apply_progress_rows (qs.map freshOf) (save_progress_rows qs) = qs ∧
    (∀ (r : ProgressRow) (qs' : List Question),
      (∀ q ∈ qs', (q.qid == r.qid) = false) → applyRow r qs' = qs') := by
  refine ⟨?_, fun r qs' h' => applyRow_no_match r qs' h'⟩
  induction qs with
  | nil => rfl
  | cons q rest ih =>
    have hcons := h
    rw [List.map_cons, List.nodup_cons] at hcons
    obtain ⟨hnotmem, hrest⟩ := hcons
    have hguard : ¬ (rest.map freshOf).any (fun q2 =>
        q2.qid == (⟨q.qid, q.answered, q.correct, q.wrong, boolToInt q.marked,
          boolToInt q.mastered⟩ : ProgressRow).qid) := by
      intro hc
      obtain ⟨q2, hq2, hbeq⟩ := List.any_eq_true.mp hc
      obtain ⟨p, hp, rfl⟩ := List.mem_map.mp hq2
      have hpq : p.qid = q.qid := beq_iff_eq.mp hbeq
      exact hnotmem (hpq ▸ List.mem_map_of_mem (fun q => q.qid) hp)
    have hbeq : ((freshOf q).qid == (⟨q.qid, q.answered, q.correct, q.wrong,
        boolToInt q.marked, boolToInt q.mastered⟩ : ProgressRow).qid) = true := by
      exact beq_iff_eq.mpr rfl
    have hstep1 : applyRow
        ⟨q.qid, q.answered, q.correct, q.wrong, boolToInt q.marked, boolToInt q.mastered⟩
        (freshOf q :: rest.map freshOf) = q :: rest.map freshOf := by
      rw [applyRow_cons, if_neg hguard, if_pos hbeq, applyFields_fresh]
    have hskip : ∀ r ∈ save_progress_rows rest, (q.qid == r.qid) = false := by
      intro r hr
      obtain ⟨p, hp, rfl⟩ := List.mem_map.mp hr
      have hne : q.qid ≠ p.qid := by
        intro he
        exact hnotmem (he ▸ List.mem_map_of_mem (fun q => q.qid) hp)
      exact beq_eq_false_iff_ne.mpr hne
    have hfresh : (q :: rest).map freshOf = freshOf q :: rest.map freshOf := rfl
    have hsave : save_progress_rows (q :: rest) =
        ⟨q.qid, q.answered, q.correct, q.wrong, boolToInt q.marked, boolToInt q.mastered⟩ ::
          save_progress_rows rest := rfl
    rw [hfresh, hsave]
    unfold apply_progress_rows
    rw [List.foldl_cons, hstep1]
    have hcs := apply_rows_cons_skip q (rest.map freshOf) (save_progress_rows rest) hskip
    unfold apply_progress_rows at hcs
    rw [hcs]
    have hih := ih hrest
    unfold apply_progress_rows at hih
    rw [hih]

/-- Witness for C9: a two-question bank with distinct ids and nontrivial
progress survives the save/fresh-load/apply round trip unchanged. -/
theorem save_load_round_trip_witness :
    let qa : Question := { mkQ "1.1.1" false with answered := 5, correct := 1, wrong := 2, marked := true }
    let qb : Question := { mkQ "1.1.2" true with answered := 7, correct := 3, wrong := 0 }
    apply_progress_rows ([qa, qb].map freshOf) (save_progress_rows [qa, qb]) = [qa, qb] := by
  intro qa qb
  exact (save_load_round_trip [qa, qb] (by decide)).1

theorem isUnmastered_lt_length (qs : List Question) (j : Nat)
    (h : isUnmastered qs j = true) : j < qs.length := by
  unfold isUnmastered at h
  cases hq : qs[j]? with
  | none => rw [hq] at h; cases h
  | some q => exact (List.getElem?_eq_some.mp hq).1

/-- Counterexample to C6 as stated: applying a persisted cursor that is out
of range for the (non-empty) target set leaves `currentIndex` invalid, and
`CurrentQuestion()` then fails on a non-empty set. -/
theorem cursor_validity_counterexample :
    let s1 := change_question_set ⟨[("A", bankABC)], "", [], 0⟩ "A" [] 5
    s1.questions ≠ [] ∧ ¬(s1.idx < s1.questions.length) ∧
    get_current_question s1.questions s1.idx = none := by
  decide

/-- Claim C6 as amended: the cursor is a valid index provided every applied
persisted position is within the target set's bounds — under that proviso
switching sets yields a valid cursor and `CurrentQuestion()` returns a
question — and the answering/navigation operations preserve cursor
validity; an out-of-range persisted position is applied unchecked and
breaks the invariant. -/
theorem cursor_validity_amended (s : Store) (name : String) (rows : List ProgressRow)
    (pos : Nat) (qs : List Question) (h1 : lookupSet s.question_sets name = some qs)
    (h2 : pos < qs.length) :
    ((change_question_set s name rows pos).idx <
      (change_question_set s name rows pos).questions.length ∧
     ∃ q, get_current_question (change_question_set s name rows pos).questions
        (change_question_set s name rows pos).idx = some q) ∧
    (∀ (st : QState) (b : Bool), st.idx < st.questions.length →
      (record_answer st b).idx < (record_answer st b).questions.length) ∧
    (∀ st : QState, st.idx < st.questions.length →
      (next_question st).2.idx < (next_question st).2.questions.length ∧
      (prev_question st).2.idx < (prev_question st).2.questions.length) := by
  have hset : set_current_set s name =
      (true, { s with current_set := name, questions := qs, idx := 0 }) := by
    simp [set_current_set, h1]
  have hcq : change_question_set s name rows pos =
      { question_sets := insertReplace s.question_sets name (apply_progress_rows qs rows),
        current_set := name,
        questions := apply_progress_rows qs rows,
        idx := pos } := by
    unfold change_question_set
    rw [h1, hset]
  have hlen : (apply_progress_rows qs rows).length = qs.length :=
    apply_progress_rows_length qs rows
  refine ⟨?_, ?_, ?_⟩
  · rw [hcq]
    have hplen : pos < (apply_progress_rows qs rows).length := by
      rw [hlen]; exact h2
    refine ⟨hplen, ?_⟩
    have hne : ¬ ((apply_progress_rows qs rows).isEmpty = true) := by
      rw [List.isEmpty_iff]
      intro he
      rw [he] at hplen
      simp at hplen
    refine ⟨(apply_progress_rows qs rows)[pos], ?_⟩
    unfold get_current_question
    rw [if_neg hne]
    exact List.getElem?_eq_getElem hplen
  · intro st b hst
    unfold record_answer
    cases hgc : get_current_question st.questions st.idx with
    | none => exact hst
    | some q => simpa [List.length_set] using hst
  · intro st hst
    constructor
    · cases hscan : scanForward st.questions (st.idx + 1) with
      | none => unfold next_question; rw [hscan]; exact hst
      | some j =>
        obtain ⟨hle, hun, _⟩ := (scanForward_eq_some _ _ _).mp hscan
        unfold next_question
        rw [hscan]
        exact isUnmastered_lt_length _ _ hun
    · cases hscan : scanBackward st.questions st.idx with
      | none => unfold prev_question; rw [hscan]; exact hst
      | some j =>
        obtain ⟨hle, hun, _⟩ := (scanBackward_eq_some _ _ _).mp hscan
        unfold prev_question
        rw [hscan]
        exact isUnmastered_lt_length _ _ hun

/-- Witness for the amended C6: applying the in-range persisted position 2
to the three-question set A leaves a valid cursor and a current question. -/
theorem cursor_validity_amended_witness :
    (change_question_set ⟨[("A", bankABC)], "", [], 0⟩ "A" [] 2).idx <
      (change_question_set ⟨[("A", bankABC)], "", [], 0⟩ "A" [] 2).questions.length ∧
    ∃ q, get_current_question
        (change_question_set ⟨[("A", bankABC)], "", [], 0⟩ "A" [] 2).questions
        (change_question_set ⟨[("A", bankABC)], "", [], 0⟩ "A" [] 2).idx = some q := by
  exact (cursor_validity_amended ⟨[("A", bankABC)], "", [], 0⟩ "A" [] 2 bankABC
    (by decide) (by decide)).1

/-- Counterexample to C10 as stated: for a stored answer captured as "BA",
selecting exactly the letters A and B yields the widget-order string "AB",
which the exact string comparison judges incorrect even though the selected
letter set equals the correct letter set. -/
theorem mc_order_counterexample :
    let answer := String.mk (extract_answer_letters ['B', 'A', '\n'])
    let selected := get_selected_answers ['A', 'B', 'C', 'D']
      (fun c => c == 'A' || c == 'B')
    answer = "BA" ∧ selected.data.Perm answer.data ∧
    check_answer selected answer = false := by
  refine ⟨by decide, ?_, by decide⟩
  have hsel : (get_selected_answers ['A', 'B', 'C', 'D']
      (fun c => c == 'A' || c == 'B')).data = ['A', 'B'] := by decide
  have hans : (String.mk (extract_answer_letters ['B', 'A', '\n'])).data =
      ['B', 'A'] := by decide
  rw [hsel, hans]
  exact List.Perm.swap 'B' 'A' []

/-- Claim C10 as amended: the judgment is insensitive to the order in which
the user selects options — the submission is always read back in fixed
option order — so a submission selecting exactly the correct letter set is
judged correct precisely when the stored answer string is itself written in
that fixed option order; the extractor stores the captured letters verbatim,
so an answer captured out of order is never matched. -/
theorem mc_judging_amended (buttons : List Char) (checked ansSet : Char → Bool)
    (h : ∀ c ∈ buttons, checked c = ansSet c) :
    check_answer (get_selected_answers buttons checked)
      (String.mk (buttons.filter ansSet)) = true := by
  have hfilter : buttons.filter checked = buttons.filter ansSet :=
    List.filter_congr h
  simp [check_answer, get_selected_answers, hfilter]

/-- Witness for the amended C10: selecting exactly {A, B} against the
canonically-ordered stored answer "AB" is judged correct. -/
theorem mc_judging_amended_witness :
    check_answer
      (get_selected_answers ['A', 'B', 'C', 'D'] (fun c => c == 'A' || c == 'B'))
      (String.mk (['A', 'B', 'C', 'D'].filter (fun c => c == 'A' || c == 'B'))) =
      true := by
  exact mc_judging_amended ['A', 'B', 'C', 'D'] (fun c => c == 'A' || c == 'B')
    (fun c => c == 'A' || c == 'B') (fun c _ => rfl)

